import Mathlib

/-!
# Verification of the static-asset updater

A shallow embedding of `src/IgnoreAsset.ts` (the `StaticAssetUpdater` class)
from the `update-static-assets` GitHub action, together with proofs about its
asset extraction, version reconciliation, update application and pull-request
publishing logic.

JavaScript strings are modelled as Lean `String`s; the JavaScript string
operations used by the source (`split`, `includes`, `replace`, `startsWith`,
`<`, `toLowerCase`, `parseInt`) are given explicit executable models below,
matching ECMAScript semantics on the relevant inputs (first-occurrence
`replace`, code-unit lexicographic `<`, radix-10 `parseInt` with NaN
represented by `none`).
-/

namespace StaticAssets

/-! ## JavaScript string primitives -/

/-- Split a list of characters on a single separator character.
Models `String.prototype.split` with a one-character separator:
`"".split(c)` is `[""]`, and separators at the ends produce empty pieces. -/
def splitCharAux (sep : Char) : List Char → List Char → List (List Char)
  | [], acc => [acc.reverse]
  | c :: cs, acc =>
    if c = sep then acc.reverse :: splitCharAux sep cs []
    else splitCharAux sep cs (c :: acc)

/-- Model of `s.split(sep)` for a one-character separator `sep`. -/
def jsSplitChar (sep : Char) (s : String) : List String :=
  (splitCharAux sep s.data []).map (fun cs => ⟨cs⟩)

/-- Whether `pat` starts `hay`, on character lists (decidable, kernel-reducible). -/
def isPrefixL : List Char → List Char → Bool
  | [], _ => true
  | _ :: _, [] => false
  | p :: ps, h :: hs => p = h && isPrefixL ps hs

/-- Model of `s.startsWith(pre)` as in JavaScript. -/
def jsStartsWith (s pre : String) : Bool :=
  isPrefixL pre.data s.data

/-- Substring containment on character lists. -/
def includesL (hay pat : List Char) : Bool :=
  match hay with
  | [] => pat.isEmpty
  | _ :: t => isPrefixL pat hay || includesL t pat

/-- Model of `s.includes(pat)` as in JavaScript (the empty pattern is contained
everywhere). -/
def jsIncludes (s pat : String) : Bool :=
  includesL s.data pat.data

/-- Replace the first occurrence of `pat` in `hay` by `rep`, on character
lists. With an empty `pat`, the replacement is inserted at the front, as in
JavaScript. If `pat` does not occur, the input is returned unchanged. -/
def replaceFirstL (pat rep : List Char) : List Char → List Char
  | [] => if pat.isEmpty then rep else []
  | h :: t =>
    if isPrefixL pat (h :: t) then rep ++ (h :: t).drop pat.length
    else h :: replaceFirstL pat rep t

/-- Model of `s.replace(pat, rep)` as in JavaScript: only the first occurrence of the
string pattern `pat` is replaced. -/
def jsReplaceFirst (s pat rep : String) : String :=
  ⟨replaceFirstL pat.data rep.data s.data⟩

/-- Code-unit lexicographic order on character lists, as used by the
JavaScript `<` operator on strings. -/
def strLtL : List Char → List Char → Bool
  | [], [] => false
  | [], _ :: _ => true
  | _ :: _, [] => false
  | a :: as, b :: bs =>
    if a.val < b.val then true
    else if b.val < a.val then false
    else strLtL as bs

/-- The JavaScript string comparison `a < b`. -/
def jsStrLt (a b : String) : Bool :=
  strLtL a.data b.data

/-- ASCII lower-casing of one character (models the behaviour of
`String.prototype.toLowerCase` on the ASCII range, which is all the source
feeds it). -/
def lowerChar (c : Char) : Char :=
  if 'A' ≤ c ∧ c ≤ 'Z' then Char.ofNat (c.toNat + 32) else c

/-- Model of `s.toLowerCase()` restricted to ASCII case mapping. -/
def jsToLower (s : String) : String :=
  ⟨s.data.map lowerChar⟩

/-- Accumulate a run of decimal digits into a natural number. -/
def digitsToNat (ds : List Char) : Nat :=
  ds.foldl (fun n c => n * 10 + (c.toNat - '0'.toNat)) 0

/-- Model of `parseInt(s, 10)` from JavaScript: skip leading whitespace, read an
optional sign, then a maximal run of decimal digits; `none` models `NaN`
(no digits found). Trailing characters are ignored. -/
def parseIntJS (s : String) : Option Int :=
  let cs := s.data.dropWhile (fun c => c = ' ' ∨ c = '\t' ∨ c = '\n' ∨ c = '\r')
  match cs with
  | '-' :: rest =>
    let ds := rest.takeWhile Char.isDigit
    if ds.isEmpty then none else some (-(digitsToNat ds : Int))
  | '+' :: rest =>
    let ds := rest.takeWhile Char.isDigit
    if ds.isEmpty then none else some (digitsToNat ds : Int)
  | _ =>
    let ds := cs.takeWhile Char.isDigit
    if ds.isEmpty then none else some (digitsToNat ds : Int)

/-- Model of `parseInt` applied to an indexing result that may be `undefined`
(indexing past the end of the array returned by `split`): `undefined`
parses to `NaN`. -/
def parseIntAt (parts : List String) (i : Nat) : Option Int :=
  match parts.get? i with
  | none => none
  | some s => parseIntJS s

/-- The JavaScript comparison `a > b` where either operand may be `NaN`
(modelled by `none`): any comparison with `NaN` is `false`. -/
def jsGtNaN : Option Int → Option Int → Bool
  | some a, some b => a > b
  | _, _ => false

/-! ## Data model (`IgnoreAsset.ts` interfaces and `CdnFile.ts`) -/

/-- Modelled from the spec: `CdnProvider` is an enum over the two supported
CDN providers, cdnjs and jsdelivr (its defining file is not part of the
sources; the spec fixes the two variants). -/
inductive CdnProvider where
  | cdnjs
  | jsdelivr
deriving DecidableEq

/-- The string form a `CdnProvider` value takes in a template literal,
as used to build record keys. -/
def cdnProviderKey : CdnProvider → String
  | .cdnjs => "cdnjs"
  | .jsdelivr => "jsdelivr"

/-- The `interface Asset { cdn; name }` record. -/
structure Asset where
  cdn : CdnProvider
  name : String
deriving DecidableEq

/-- The `interface AssetVersion extends Asset { version }` record. -/
structure AssetVersion where
  cdn : CdnProvider
  name : String
  version : String
deriving DecidableEq

/-- The `interface AssetVersionItem extends AssetVersion` record with url, integrity and fileName.
`integrity` is nullable (`none` models `null`). -/
structure AssetVersionItem where
  cdn : CdnProvider
  name : String
  version : String
  url : String
  integrity : Option String
  fileName : String
deriving DecidableEq

/-- The `interface CdnFile { url; fileName; integrity }` record. The source defends
against a missing integrity with `?? ''`, so we model it as nullable. -/
structure CdnFile where
  url : String
  fileName : String
  integrity : Option String
deriving DecidableEq

/-- The `interface PullRequest { number; url }` record. -/
structure PullRequest where
  number : Int
  url : String
deriving DecidableEq

/-- The `interface AssetUpdate` record (`AssetUpdate.ts`): the record pushed onto
`result.updates` for each published update. -/
structure AssetUpdate where
  cdn : CdnProvider
  name : String
  pullRequestNumber : Int
  pullRequestUrl : String
  version : String
deriving DecidableEq

/-- Modelled from the spec: the `UpdateOptions` configuration record
(its defining file is not part of the sources; field use is fixed by
`IgnoreAsset.ts`). String options use `""` for an unset/falsy value,
matching JavaScript truthiness tests on them. -/
structure UpdateOptions where
  repoPath : String
  accessToken : String
  apiUrl : String
  serverUrl : String
  repo : String
  runId : String
  branchPrefixStr : String
  commitMessage : String
  userName : String
  userEmail : String
  labels : String
  dryRun : Bool

/-- Model of `StaticAssetUpdater.getKey`: the record key `` `${asset.cdn}-${asset.name}` ``
for an asset's (cdn, name) identity. -/
def getKey (cdn : CdnProvider) (name : String) : String :=
  cdnProviderKey cdn ++ "-" ++ name

/-! ## Asset extractor -/

/-- Skip up to and including the first occurrence of `://` in a character
list (scheme separator of a URL). -/
def dropSchemeSep : List Char → List Char
  | [] => []
  | c :: cs =>
    if isPrefixL [':', '/', '/'] (c :: cs) then cs.drop 2
    else dropSchemeSep cs

/-- Modelled from the platform `URL` parser (an external dependency of the
source): `new URL(url).pathname` for an absolute http(s) URL — the part of
the URL after the authority and before any query or fragment, defaulting to
`/` when the path is empty. -/
def urlPathname (url : String) : String :=
  let rest := dropSchemeSep url.data
  let afterHost := rest.dropWhile (fun c => c ≠ '/' ∧ c ≠ '?' ∧ c ≠ '#')
  let path := afterHost.takeWhile (fun c => c ≠ '?' ∧ c ≠ '#')
  if path.isEmpty then "/" else ⟨path⟩

/-- Model of `StaticAssetUpdater.extractAsset`: decompose a CDN URL's path into
name, version and file name according to the provider's layout, or `none`
when the layout does not match. -/
def extractAsset (provider : CdnProvider) (url : String) (integrity : Option String) :
    Option AssetVersionItem :=
  match provider with
  | .cdnjs =>
    if (jsSplitChar '/' ⟨(urlPathname url).data.drop 1⟩).length ≥ 4 then
      some { cdn := provider,
             name := (jsSplitChar '/' ⟨(urlPathname url).data.drop 1⟩).getD 2 "",
             version := (jsSplitChar '/' ⟨(urlPathname url).data.drop 1⟩).getD 3 "",
             url := url, integrity := integrity,
             fileName := String.intercalate "/"
               ((jsSplitChar '/' ⟨(urlPathname url).data.drop 1⟩).drop 4) }
    else none
  | .jsdelivr =>
    if (jsSplitChar '/' ⟨(urlPathname url).data.drop 1⟩).length ≥ 2 then
      if (jsSplitChar '@' ((jsSplitChar '/' ⟨(urlPathname url).data.drop 1⟩).getD 1 "")).length
          = 2 then
        some { cdn := provider,
               name := (jsSplitChar '@'
                 ((jsSplitChar '/' ⟨(urlPathname url).data.drop 1⟩).getD 1 "")).getD 0 "",
               version := (jsSplitChar '@'
                 ((jsSplitChar '/' ⟨(urlPathname url).data.drop 1⟩).getD 1 "")).getD 1 "",
               url := url, integrity := integrity,
               fileName := "/" ++ String.intercalate "/"
                 ((jsSplitChar '/' ⟨(urlPathname url).data.drop 1⟩).drop 2) }
      else none
    else none

/-- Model of `StaticAssetUpdater.cdnMap`: the ordered CDN-origin prefix table. -/
def cdnMap : List (String × CdnProvider) :=
  [("https://cdnjs.cloudflare.com", .cdnjs), ("https://cdn.jsdelivr.net", .jsdelivr)]

/-- Model of `StaticAssetUpdater.tryGetAsset`: match the URL against the CDN prefix
table (first match wins) and extract the asset, or `none` when no prefix
matches. -/
def tryGetAsset (url : String) (integrity : Option String) : Option AssetVersionItem :=
  match cdnMap.find? (fun p => jsStartsWith url p.1) with
  | some p => extractAsset p.2 url integrity
  | none => none

/-! ## Commit message generation -/

/-- The `updateKind` computation inside
`StaticAssetUpdater.generateCommitMessage`: `'major'` when the latest major
component parses strictly greater than the current one, else `'minor'` when
the latest minor component parses strictly greater, else `'patch'`
(comparisons with `NaN` are false). -/
def updateKind (currentAssetVersion latestAssetVersion : String) : String :=
  if jsGtNaN (parseIntAt (jsSplitChar '.' latestAssetVersion) 0)
      (parseIntAt (jsSplitChar '.' currentAssetVersion) 0) then "major"
  else if jsGtNaN (parseIntAt (jsSplitChar '.' latestAssetVersion) 1)
      (parseIntAt (jsSplitChar '.' currentAssetVersion) 1) then "minor"
  else "patch"

/-- Model of `StaticAssetUpdater.generateCommitMessage`: the dependabot-style commit
message, with the update type chosen by `updateKind`. -/
def generateCommitMessage (assetName currentAssetVersion latestAssetVersion : String) : String :=
  String.intercalate "\n"
    ["Update " ++ assetName,
     "",
     "Updates " ++ assetName ++ " to version " ++ latestAssetVersion ++ ".",
     "",
     "---",
     "updated-dependencies:",
     "- dependency-name: " ++ assetName,
     "  dependency-type: direct:production",
     "  update-type: version-update:semver-" ++ updateKind currentAssetVersion latestAssetVersion,
     "...",
     "",
     ""]

/-! ## Version reconciler (`tryUpdateAssets`, lines 76–159)

JavaScript `Record`s keyed by strings are modelled as insertion-ordered
association lists: `recGet` is key lookup and `recSet` is assignment
(updating in place or appending a new key). -/

/-- Lookup in a record modelled as an association list. -/
def recGet {α : Type} (m : List (String × α)) (k : String) : Option α :=
  (m.find? (fun p => p.1 = k)).map Prod.snd

/-- Assignment in a record modelled as an association list: overwrite the
existing key in place or append a new one (the lists built here never hold
duplicate keys). -/
def recSet {α : Type} : List (String × α) → String → α → List (String × α)
  | [], k, v => [(k, v)]
  | p :: rest, k, v => if p.1 = k then (k, v) :: rest else p :: recSet rest k v

/-- Lines 92–99, one item: push the item's (cdn, name) unless an asset with
the same identity is already present. -/
def addAsset (assets : List Asset) (asset : AssetVersionItem) : List Asset :=
  if assets.any (fun a => a.cdn == asset.cdn && a.name == asset.name) then assets
  else assets ++ [⟨asset.cdn, asset.name⟩]

/-- Lines 87–100: the unique assets present in the files, in first-seen
order. -/
def computeAssets (fileAssetMap : List (String × List AssetVersionItem)) : List Asset :=
  fileAssetMap.foldl (fun assets entry => entry.2.foldl addAsset assets) []

/-- Lines 107–121, one item: record the item's version under its asset's
key unless that version is already recorded there. -/
def addVersion (m : List (String × List AssetVersion)) (asset : AssetVersionItem) :
    List (String × List AssetVersion) :=
  let key := getKey asset.cdn asset.name
  let versions := (recGet m key).getD []
  let versions :=
    if versions.any (fun a => a.version == asset.version) then versions
    else versions ++ [⟨asset.cdn, asset.name, asset.version⟩]
  recSet m key versions

/-- Lines 102–122: the distinct versions observed for each asset, keyed by
`getKey`. -/
def computeAssetVersions (fileAssetMap : List (String × List AssetVersionItem)) :
    List (String × List AssetVersion) :=
  fileAssetMap.foldl (fun m entry => entry.2.foldl addVersion m) []

/-- Lines 126–135, one asset: record the CDN's reported latest version, or
nothing when the lookup fails. -/
def addLatest (latest : CdnProvider → String → Option String)
    (m : List (String × String)) (asset : Asset) : List (String × String) :=
  match latest asset.cdn asset.name with
  | some version => recSet m (getKey asset.cdn asset.name) version
  | none => m

/-- Lines 124–135: the latest version of each asset, keyed by `getKey`.
`latest` abstracts the `CdnClient.getLatestVersion` network call (`none`
models a `null` / failed resolution); `getClient` never returns `null` for
the two `CdnProvider` variants, so its null check is vacuous. A failed
resolution leaves the key unset. -/
def computeAssetLatestVersions (latest : CdnProvider → String → Option String)
    (assets : List Asset) : List (String × String) :=
  assets.foldl (addLatest latest) []

/-- Lines 144–157, one observed version: push the asset if this version
differs from the (possibly absent) latest version and the asset was not
already pushed. The comparison `version.version !== latestVersion` is
against a possibly `undefined` latest version (modelled by `Option`): a
string never equals `undefined`. -/
def markStale (asset : Asset) (latestVersion : Option String) (acc : List Asset)
    (version : AssetVersion) : List Asset :=
  if some version.version ≠ latestVersion then
    if acc.any (fun a => a.cdn == asset.cdn && a.name == asset.name) then acc
    else acc ++ [asset]
  else acc

/-- Lines 139–159, one asset: scan its recorded versions (skipping assets
with no version record, which cannot happen for assets drawn from the
files). -/
def addStale (assetVersions : List (String × List AssetVersion))
    (assetLatestVersions : List (String × String)) (acc : List Asset) (asset : Asset) :
    List Asset :=
  let key := getKey asset.cdn asset.name
  match recGet assetVersions key with
  | none => acc
  | some versions => versions.foldl (markStale asset (recGet assetLatestVersions key)) acc

/-- Lines 137–159: the assets using a version that is not the latest one
(`assetsToUpdate`). -/
def computeAssetsToUpdate (assets : List Asset)
    (assetVersions : List (String × List AssetVersion))
    (assetLatestVersions : List (String × String)) : List Asset :=
  assets.foldl (addStale assetVersions assetLatestVersions) []

/-! ## Update applier (`applyAssetUpdate`, lines 544–673) -/

/-- Lines 560–565: the occurrences in one file that are candidates for
replacement — same (cdn, name) as the update, version different from the
target version. -/
def candidateItems (items : List AssetVersionItem) (assetUpdate : AssetVersion) :
    List AssetVersionItem :=
  items.filter (fun a =>
    a.cdn == assetUpdate.cdn && a.name == assetUpdate.name && a.version != assetUpdate.version)

/-- Lines 567–584: process one candidate occurrence against the state
(content, dirty, lowestVersion): replace the URL (and integrity, when
present) if the matching CDN file exists and the content contains the URL. -/
def replaceItem (cdnFiles : List CdnFile) (st : String × Bool × String)
    (assetToUpdate : AssetVersionItem) : String × Bool × String :=
  let (content, dirty, lowestVersion) := st
  match cdnFiles.find? (fun a => a.fileName == assetToUpdate.fileName) with
  | some latestAsset =>
    if jsIncludes content assetToUpdate.url then
      let content := jsReplaceFirst content assetToUpdate.url latestAsset.url
      let content :=
        if (assetToUpdate.integrity.getD "") ≠ "" then
          jsReplaceFirst content (assetToUpdate.integrity.getD "") (latestAsset.integrity.getD "")
        else content
      let lowestVersion :=
        if jsStrLt lowestVersion assetToUpdate.version then assetToUpdate.version
        else lowestVersion
      (content, true, lowestVersion)
    else (content, dirty, lowestVersion)
  | none => (content, dirty, lowestVersion)

/-- Lines 556–584 for one file: fold the candidate occurrences over the
file's content, starting clean. -/
def updateFileContent (content : String) (items : List AssetVersionItem)
    (assetUpdate : AssetVersion) (cdnFiles : List CdnFile) (lowestVersion : String) :
    String × Bool × String :=
  (candidateItems items assetUpdate).foldl (replaceItem cdnFiles) (content, false, lowestVersion)

/-- Lines 556–590, one iteration of the file loop: accumulate
(filesUpdated, lowestVersion, written-files). A dirty file is rewritten
(recorded in the written list) and counted; a clean file is left alone. -/
def applyFileStep (disk : String → String) (assetUpdate : AssetVersion)
    (cdnFiles : List CdnFile) (acc : Nat × String × List (String × String))
    (entry : String × List AssetVersionItem) : Nat × String × List (String × String) :=
  let (filesUpdated, lowestVersion, written) := acc
  let (content, dirty, lowest) :=
    updateFileContent (disk entry.1) entry.2 assetUpdate cdnFiles lowestVersion
  if dirty then (filesUpdated + 1, lowest, written ++ [(entry.1, content)])
  else (filesUpdated, lowest, written)

/-- Lines 552–590: the whole file loop of `applyAssetUpdate`.
`disk` models `fs.readFileSync` (each file is read once). -/
def applyFiles (disk : String → String) (fileAssetMap : List (String × List AssetVersionItem))
    (assetUpdate : AssetVersion) (cdnFiles : List CdnFile) :
    Nat × String × List (String × String) :=
  fileAssetMap.foldl (applyFileStep disk assetUpdate cdnFiles) (0, "0.0.0", [])

/-- One recorded `git` invocation (its argument list). -/
abbrev GitCmd := List String

/-- The observable behaviour of the external `git` tool that
`applyAssetUpdate` branches on: the output of
`git rev-parse --verify --quiet remotes/origin/<branch>` (empty when the
remote branch does not exist). -/
structure GitEnv where
  branchVerify : String → String

/-- A single-quote character, used in the `git log --format` argument. -/
def singleQuote : String := ⟨[Char.ofNat 39]⟩

/-- Lines 618–636: the conditional `git config` / `git remote set-url` /
`git fetch` invocations preceding the branch check. -/
def configTrace (opts : UpdateOptions) : List GitCmd :=
  (if opts.userName ≠ "" then [["config", "user.name", opts.userName]] else []) ++
  (if opts.userEmail ≠ "" then [["config", "user.email", opts.userEmail]] else []) ++
  (if opts.repo ≠ "" then
    [["remote", "set-url", "origin", opts.serverUrl ++ "/" ++ opts.repo ++ ".git"],
     ["fetch", "origin"]]
   else [])

/-- Lines 643–646: the `git rev-parse` probe for the remote branch. -/
def revParseCmd (branch : String) : GitCmd :=
  ["rev-parse", "--verify", "--quiet", "remotes/origin/" ++ branch]

/-- Lines 653–662: checkout of the new branch, staging, commit, and the
`git log` call reading the commit hash. -/
def commitTrace (branch commitMessage : String) : List GitCmd :=
  [["checkout", "-b", branch], ["add", "."], ["commit", "-m", commitMessage],
   ["log", "--format=" ++ singleQuote ++ "%H" ++ singleQuote, "-n", "1"]]

/-- Lines 667–670: the push, performed only when not in dry-run and a repo
is configured. -/
def pushTrace (opts : UpdateOptions) (branch : String) : List GitCmd :=
  if !opts.dryRun && opts.repo ≠ "" then [["push", "-u", "origin", branch]] else []

/-- Model of `StaticAssetUpdater.applyAssetUpdate` (lines 544–673): rewrite stale
occurrences on disk, then (when at least one file changed) run the git
sequence — config, remote set-url/fetch, remote-branch check, checkout,
add, commit, and push (suppressed in dry-run or without a configured
repo). Returns the head branch (or `none`), the ordered trace of git
invocations, and the list of rewritten files with their new contents. -/
def applyAssetUpdate (opts : UpdateOptions) (env : GitEnv) (disk : String → String)
    (fileAssetMap : List (String × List AssetVersionItem))
    (assetUpdate : AssetVersion) (cdnFiles : List CdnFile) :
    Option String × List GitCmd × List (String × String) :=
  let (filesUpdated, lowestVersion, written) := applyFiles disk fileAssetMap assetUpdate cdnFiles
  if filesUpdated < 1 then (none, [], written)
  else
    let bp := if opts.branchPrefixStr ≠ "" then opts.branchPrefixStr else "update-static-assets"
    let branch := jsToLower (bp ++ "/" ++ assetUpdate.name ++ "/" ++ assetUpdate.version)
    let commitMessage :=
      if opts.commitMessage ≠ "" then opts.commitMessage
      else generateCommitMessage assetUpdate.name lowestVersion assetUpdate.version
    if env.branchVerify branch ≠ "" then (none, configTrace opts ++ [revParseCmd branch], written)
    else
      (some branch,
       configTrace opts ++ [revParseCmd branch] ++ commitTrace branch commitMessage ++
         pushTrace opts branch,
       written)

/-! ## Pull-request publisher (`createPullRequest`, lines 419–496) -/

/-- The request record passed to the pull-request creation API. -/
structure PrRequest where
  owner : String
  repo : String
  title : String
  head : String
  base : String
  body : String
  maintainerCanModify : Bool
  draft : Bool
deriving DecidableEq

/-- One network call to the pull-request service. -/
inductive PrCall where
  | create (req : PrRequest)
  | addLabels (issueNumber : Int) (labels : List String)
deriving DecidableEq

/-- The observable behaviour of the pull-request service: the number and
URL returned by a successful create call. -/
structure PrApi where
  createResult : PullRequest

/-- Model of `StaticAssetUpdater.createPullRequest`: build the title, body and
request; in dry-run mode return the placeholder `{number := 0, url := ""}`
without any network call, otherwise create the pull request and optionally
add labels (label failures are swallowed and do not change the result). -/
def createPullRequest (opts : UpdateOptions) (api : PrApi) (base head : String)
    (asset : AssetVersion) : PullRequest × List PrCall :=
  let title := "Update " ++ asset.name ++ " to " ++ asset.version
  let body := "Updates " ++ asset.name ++ " to version `" ++ asset.version ++ "`." ++
    "\n\nThis pull request was auto-generated by [GitHub Actions](" ++ opts.serverUrl ++
    "/" ++ opts.repo ++ "/actions/runs/" ++ opts.runId ++ ")."
  let split := jsSplitChar '/' opts.repo
  let owner := split.getD 0 ""
  let repo := split.getD 1 ""
  let request : PrRequest :=
    { owner := owner, repo := repo, title := title, head := head, base := base,
      body := body, maintainerCanModify := true, draft := false }
  if opts.dryRun then ({ number := 0, url := "" }, [])
  else
    let response := api.createResult
    let result : PullRequest := { number := response.number, url := response.url }
    let calls := [PrCall.create request]
    if opts.labels ≠ "" then
      let labelsToApply := jsSplitChar ',' opts.labels
      if labelsToApply.length > 0 then (result, calls ++ [PrCall.addLabels result.number labelsToApply])
      else (result, calls)
    else (result, calls)

/-- Lines 197–213 of `tryUpdateAssets`: when `applyAssetUpdate` returned a
head branch, create the pull request and record the `AssetUpdate`;
otherwise do nothing (no pull-request call at all). -/
def publishStep (opts : UpdateOptions) (api : PrApi) (baseBranch : String)
    (headBranch : Option String) (asset : Asset) (version : String) :
    Option AssetUpdate × List PrCall :=
  match headBranch with
  | none => (none, [])
  | some head =>
    let (pullRequest, calls) := createPullRequest opts api baseBranch head
      ⟨asset.cdn, asset.name, version⟩
    (some { cdn := asset.cdn, name := asset.name, pullRequestNumber := pullRequest.number,
            pullRequestUrl := pullRequest.url, version := version }, calls)

/-! ## Concrete run fragments used to instantiate the theorems -/

/-- An occurrence of `foo` at version 1.0.0 in a markup file. -/
def exItemOld : AssetVersionItem :=
  { cdn := .cdnjs, name := "foo", version := "1.0.0",
    url := "https://cdnjs.cloudflare.com/ajax/libs/foo/1.0.0/foo.min.js",
    integrity := some "sha-old1", fileName := "foo.min.js" }

/-- An occurrence of `foo` at version 2.0.0 in the same markup file. -/
def exItemMid : AssetVersionItem :=
  { cdn := .cdnjs, name := "foo", version := "2.0.0",
    url := "https://cdnjs.cloudflare.com/ajax/libs/foo/2.0.0/foo.min.js",
    integrity := some "sha-old2", fileName := "foo.min.js" }

/-- An occurrence of `foo` already at the target version 3.0.0. -/
def exItemCur : AssetVersionItem :=
  { cdn := .cdnjs, name := "foo", version := "3.0.0",
    url := "https://cdnjs.cloudflare.com/ajax/libs/foo/3.0.0/foo.min.js",
    integrity := some "sha-new", fileName := "foo.min.js" }

/-- A file-asset map with one file holding occurrences at 1.0.0 and 2.0.0. -/
def exFam : List (String × List AssetVersionItem) := [("index.html", [exItemOld, exItemMid])]

/-- A file-asset map with a single occurrence at 1.0.0. -/
def exFamOne : List (String × List AssetVersionItem) := [("index.html", [exItemOld])]

/-- A CDN whose latest-version lookup always fails. -/
def exLatestNone : CdnProvider → String → Option String := fun _ _ => none

/-- A CDN reporting latest version 3.0.0 for every package. -/
def exLatestThree : CdnProvider → String → Option String := fun _ _ => some "3.0.0"

/-- The on-disk content of `index.html`: both stale occurrences are
literally present. -/
def exDisk : String → String := fun _ =>
  "<script src=https://cdnjs.cloudflare.com/ajax/libs/foo/1.0.0/foo.min.js integrity=sha-old1>" ++
  "<script src=https://cdnjs.cloudflare.com/ajax/libs/foo/2.0.0/foo.min.js integrity=sha-old2>"

/-- A disk whose file content contains no CDN URL at all. -/
def exDiskEmpty : String → String := fun _ => "<html></html>"

/-- The CDN file listing for `foo` at 3.0.0. -/
def exCdnFiles : List CdnFile :=
  [{ url := "https://cdnjs.cloudflare.com/ajax/libs/foo/3.0.0/foo.min.js",
     fileName := "foo.min.js", integrity := some "sha-new" }]

/-- The update under way: `foo` to 3.0.0. -/
def exAU : AssetVersion := ⟨.cdnjs, "foo", "3.0.0"⟩

/-- Options with no overrides configured, not a dry run. -/
def exOpts : UpdateOptions :=
  { repoPath := ".", accessToken := "", apiUrl := "", serverUrl := "https://github.com",
    repo := "octo/site", runId := "1", branchPrefixStr := "", commitMessage := "",
    userName := "", userEmail := "", labels := "", dryRun := false }

/-- The same options with the dry-run flag enabled. -/
def exOptsDry : UpdateOptions := { exOpts with dryRun := true }

/-- A git environment in which no remote branch exists yet. -/
def exEnv : GitEnv := ⟨fun _ => ""⟩

/-- A pull-request service returning number 42. -/
def exApi : PrApi := ⟨⟨42, "https://github.com/octo/site/pull/42"⟩⟩

/-! ## Commit-message classification (claims C4, C10) -/

/-- C10: whenever the latest version's first dotted component does not parse
strictly greater than the current's, and the second likewise does not, the
update type is `patch` — this covers downgrades and non-numeric components,
since every comparison against `NaN` is false. The commit message then
carries `version-update:semver-patch`. -/
theorem updateKind_patch_of_no_increase (assetName cur lat : String)
    (h0 : jsGtNaN (parseIntAt (jsSplitChar '.' lat) 0) (parseIntAt (jsSplitChar '.' cur) 0) = false)
    (h1 : jsGtNaN (parseIntAt (jsSplitChar '.' lat) 1) (parseIntAt (jsSplitChar '.' cur) 1) = false) :
    updateKind cur lat = "patch" ∧
    generateCommitMessage assetName cur lat = String.intercalate "\n"
      ["Update " ++ assetName,
       "",
       "Updates " ++ assetName ++ " to version " ++ lat ++ ".",
       "",
       "---",
       "updated-dependencies:",
       "- dependency-name: " ++ assetName,
       "  dependency-type: direct:production",
       "  update-type: version-update:semver-patch",
       "...",
       "",
       ""] := by
  have hk : updateKind cur lat = "patch" := by
    unfold updateKind
    rw [h0, h1]
    rfl
  refine ⟨hk, ?_⟩
  unfold generateCommitMessage
  rw [hk]
  rfl

/-- C10 witness: the downgrade from 2.0.0 to 1.0.0 is classified `patch`. -/
theorem updateKind_patch_of_no_increase_witness :
    updateKind "2.0.0" "1.0.0" = "patch" ∧
    generateCommitMessage "lib" "2.0.0" "1.0.0" = String.intercalate "\n"
      ["Update " ++ "lib",
       "",
       "Updates " ++ "lib" ++ " to version " ++ "1.0.0" ++ ".",
       "",
       "---",
       "updated-dependencies:",
       "- dependency-name: " ++ "lib",
       "  dependency-type: direct:production",
       "  update-type: version-update:semver-patch",
       "...",
       "",
       ""] :=
  updateKind_patch_of_no_increase "lib" "2.0.0" "1.0.0" (by decide) (by decide)

/-- C4 counterexample: the update type is not "chosen by comparing the first
differing of the (major, minor) integer components". The pairs
(current 2.0.0, latest 1.1.0) and (current 2.2.0, latest 1.1.0) have the
same first differing (major) components — 2 versus 1 — yet classify
differently, and the first of them yields `minor` even though its major
components differ. -/
theorem updateKind_not_first_differing_cex :
    parseIntAt (jsSplitChar '.' "2.0.0") 0 = some 2 ∧
    parseIntAt (jsSplitChar '.' "2.2.0") 0 = some 2 ∧
    parseIntAt (jsSplitChar '.' "1.1.0") 0 = some 1 ∧
    updateKind "2.0.0" "1.1.0" = "minor" ∧
    updateKind "2.2.0" "1.1.0" ≠ "minor" := by decide

/-- C4 amended: the update type is `major` when the latest major component
parses strictly greater than the current one; `minor` when the major
component does not increase but the latest minor component parses strictly
greater than the current one; and `patch` when neither increases. The three
spec instances classify as stated. -/
theorem updateKind_cascade (cur lat : String) (cM lM cm lm : Int)
    (hc0 : parseIntAt (jsSplitChar '.' cur) 0 = some cM)
    (hl0 : parseIntAt (jsSplitChar '.' lat) 0 = some lM)
    (hc1 : parseIntAt (jsSplitChar '.' cur) 1 = some cm)
    (hl1 : parseIntAt (jsSplitChar '.' lat) 1 = some lm) :
    (lM > cM → updateKind cur lat = "major") ∧
    (lM ≤ cM → lm > cm → updateKind cur lat = "minor") ∧
    (lM ≤ cM → lm ≤ cm → updateKind cur lat = "patch") ∧
    updateKind "1.2.3" "1.3.0" = "minor" ∧
    updateKind "1.2.3" "2.0.0" = "major" ∧
    updateKind "1.2.3" "1.2.4" = "patch" := by
  unfold updateKind
  rw [hc0, hl0, hc1, hl1]
  refine ⟨?_, ?_, ?_, by decide, by decide, by decide⟩
  · intro h
    simp [jsGtNaN, h]
  · intro h h2
    simp [jsGtNaN, not_lt.mpr h, h2]
  · intro h h2
    simp [jsGtNaN, not_lt.mpr h, not_lt.mpr h2]

/-- C4 witness: instantiating the cascade at (1.2.3, 1.3.0). -/
theorem updateKind_cascade_witness :
    ((1 : Int) > 1 → updateKind "1.2.3" "1.3.0" = "major") ∧
    ((1 : Int) ≤ 1 → (3 : Int) > 2 → updateKind "1.2.3" "1.3.0" = "minor") ∧
    ((1 : Int) ≤ 1 → (3 : Int) ≤ 2 → updateKind "1.2.3" "1.3.0" = "patch") ∧
    updateKind "1.2.3" "1.3.0" = "minor" ∧
    updateKind "1.2.3" "2.0.0" = "major" ∧
    updateKind "1.2.3" "1.2.4" = "patch" :=
  updateKind_cascade "1.2.3" "1.3.0" 1 1 2 3 (by decide) (by decide) (by decide) (by decide)

/-! ## Extractor discards (claim C5) -/

/-- C5: a cdnjs URL whose path decomposes into fewer than 4 slash-separated
segments, and a jsdelivr URL whose second path segment does not split into
exactly two parts on `@`, are discarded: `extractAsset` returns `none` and
no `AssetVersionItem` is produced. -/
theorem extractAsset_discards_malformed (url : String) (integrity : Option String) :
    ((jsSplitChar '/' ⟨(urlPathname url).data.drop 1⟩).length < 4 →
      extractAsset .cdnjs url integrity = none) ∧
    ((jsSplitChar '@' ((jsSplitChar '/' ⟨(urlPathname url).data.drop 1⟩).getD 1 "")).length ≠ 2 →
      extractAsset .jsdelivr url integrity = none) := by
  constructor
  · intro h
    simp only [extractAsset]
    rw [if_neg (by omega)]
  · intro h
    simp only [extractAsset]
    by_cases h2 : (jsSplitChar '/' ⟨(urlPathname url).data.drop 1⟩).length ≥ 2
    · rw [if_pos h2, if_neg h]
    · rw [if_neg h2]

/-- C5 witness: a cdnjs URL with only 3 path segments and a jsdelivr URL
whose package segment has no `@` are both discarded. -/
theorem extractAsset_discards_malformed_witness :
    extractAsset .cdnjs "https://cdnjs.cloudflare.com/ajax/libs/foo" none = none ∧
    extractAsset .jsdelivr "https://cdn.jsdelivr.net/npm/foo/foo.js" none = none :=
  ⟨(extractAsset_discards_malformed "https://cdnjs.cloudflare.com/ajax/libs/foo" none).1
      (by decide),
   (extractAsset_discards_malformed "https://cdn.jsdelivr.net/npm/foo/foo.js" none).2
      (by decide)⟩

/-! ## Update applier: per-file facts (claims C6, C8) -/

/-- Removing an occurrence whose version already equals the target does not
change the candidate list: such an occurrence fails the version filter. -/
theorem candidateItems_filter_ne (items : List AssetVersionItem) (au : AssetVersion)
    (i : AssetVersionItem) (h : i.version = au.version) :
    candidateItems (items.filter (fun x => x ≠ i)) au = candidateItems items au := by
  unfold candidateItems
  rw [List.filter_filter]
  apply List.filter_congr
  intro a _
  by_cases ha : a = i
  · subst ha
    rw [h]
    simp
  · simp [ha]

/-- C6: an occurrence whose version equals the resolved latest version is
never rewritten — removing it from the file's items leaves the file
processing unchanged, and every replacement candidate matches the updated
asset's (cdn, name) with a version different from the target. -/
theorem current_version_never_rewritten (content : String) (items : List AssetVersionItem)
    (au : AssetVersion) (cdnFiles : List CdnFile) (lowest : String) (i : AssetVersionItem)
    (h : i.version = au.version) :
    updateFileContent content (items.filter (fun x => x ≠ i)) au cdnFiles lowest =
      updateFileContent content items au cdnFiles lowest ∧
    ∀ j ∈ candidateItems items au,
      j.cdn = au.cdn ∧ j.name = au.name ∧ j.version ≠ au.version := by
  constructor
  · unfold updateFileContent
    rw [candidateItems_filter_ne items au i h]
  · intro j hj
    unfold candidateItems at hj
    rw [List.mem_filter] at hj
    obtain ⟨-, hp⟩ := hj
    simp only [Bool.and_eq_true, beq_iff_eq, bne_iff_ne] at hp
    tauto

/-- C6 witness: with the target version 3.0.0, the occurrence already at
3.0.0 contributes nothing. -/
theorem current_version_never_rewritten_witness :
    updateFileContent (exDisk "index.html")
        ([exItemOld, exItemCur].filter (fun x => x ≠ exItemCur)) exAU exCdnFiles "0.0.0" =
      updateFileContent (exDisk "index.html") [exItemOld, exItemCur] exAU exCdnFiles "0.0.0" ∧
    ∀ j ∈ candidateItems [exItemOld, exItemCur] exAU,
      j.cdn = exAU.cdn ∧ j.name = exAU.name ∧ j.version ≠ exAU.version :=
  current_version_never_rewritten _ _ _ _ _ _ (by decide)

/-- Folding the replacement step over candidates none of whose URLs occur
in the content leaves the state untouched. -/
theorem foldl_replaceItem_of_not_included (cdnFiles : List CdnFile)
    (l : List AssetVersionItem) (content : String) (dirty : Bool) (lowest : String)
    (h : ∀ j ∈ l, jsIncludes content j.url = false) :
    l.foldl (replaceItem cdnFiles) (content, dirty, lowest) = (content, dirty, lowest) := by
  induction l with
  | nil => rfl
  | cons j t ih =>
    have hstep : replaceItem cdnFiles (content, dirty, lowest) j = (content, dirty, lowest) := by
      unfold replaceItem
      cases hfind : cdnFiles.find? (fun a => a.fileName == j.fileName) with
      | none => simp only [hfind]
      | some la =>
        simp only [hfind, h j (List.mem_cons_self j t)]
        rfl
    rw [List.foldl_cons, hstep]
    exact ih (fun x hx => h x (List.mem_cons_of_mem j hx))

/-- C8: a file whose current text contains none of the stale URLs (so no
occurrence in it is replaced) is left byte-for-byte unchanged — it is not
written back and the files-updated counter is not incremented. -/
theorem untouched_file_not_counted (disk : String → String) (au : AssetVersion)
    (cdnFiles : List CdnFile) (acc : Nat × String × List (String × String))
    (entry : String × List AssetVersionItem)
    (h : ∀ j ∈ candidateItems entry.2 au, jsIncludes (disk entry.1) j.url = false) :
    applyFileStep disk au cdnFiles acc entry = acc := by
  obtain ⟨n, low, w⟩ := acc
  unfold applyFileStep updateFileContent
  dsimp only
  rw [foldl_replaceItem_of_not_included cdnFiles (candidateItems entry.2 au)
    (disk entry.1) false low h]
  rfl

/-- C8 witness: a file containing no CDN URL is neither rewritten nor
counted. -/
theorem untouched_file_not_counted_witness :
    applyFileStep exDiskEmpty exAU exCdnFiles (0, "0.0.0", [])
      ("index.html", [exItemOld, exItemMid]) = (0, "0.0.0", []) :=
  untouched_file_not_counted _ _ _ _ _ (by decide)

/-! ## Update applier: no-op runs (claim C7) and version tracking (claim C3) -/

/-- One file step: the files-updated count never decreases, and when it
stays the same the written list is unchanged. -/
theorem applyFileStep_count (disk : String → String) (au : AssetVersion)
    (cdnFiles : List CdnFile) (acc : Nat × String × List (String × String))
    (entry : String × List AssetVersionItem) :
    acc.1 ≤ (applyFileStep disk au cdnFiles acc entry).1 ∧
    ((applyFileStep disk au cdnFiles acc entry).1 = acc.1 →
      (applyFileStep disk au cdnFiles acc entry).2.2 = acc.2.2) := by
  obtain ⟨n, low, w⟩ := acc
  unfold applyFileStep
  dsimp only
  cases hx : (updateFileContent (disk entry.1) entry.2 au cdnFiles low).2.1 with
  | true => exact ⟨Nat.le_succ n, fun habs => absurd (show n + 1 = n from habs) (by omega)⟩
  | false => exact ⟨le_refl n, fun _ => rfl⟩

/-- Over the whole file loop: the count never decreases, and a run that
does not increase it writes no file. -/
theorem applyFiles_foldl_count (disk : String → String) (au : AssetVersion)
    (cdnFiles : List CdnFile) (fam : List (String × List AssetVersionItem)) :
    ∀ acc : Nat × String × List (String × String),
      acc.1 ≤ (fam.foldl (applyFileStep disk au cdnFiles) acc).1 ∧
      ((fam.foldl (applyFileStep disk au cdnFiles) acc).1 = acc.1 →
        (fam.foldl (applyFileStep disk au cdnFiles) acc).2.2 = acc.2.2) := by
  induction fam with
  | nil => exact fun acc => ⟨le_refl _, fun _ => rfl⟩
  | cons e t ih =>
    intro acc
    rw [List.foldl_cons]
    have h1 := applyFileStep_count disk au cdnFiles acc e
    have h2 := ih (applyFileStep disk au cdnFiles acc e)
    refine ⟨le_trans h1.1 h2.1, fun heq => ?_⟩
    have hstep : (applyFileStep disk au cdnFiles acc e).1 = acc.1 := by omega
    rw [h2.2 (by omega), h1.2 hstep]

/-- A run of the file loop that updates zero files writes nothing to disk. -/
theorem applyFiles_zero_written (disk : String → String)
    (fam : List (String × List AssetVersionItem)) (au : AssetVersion)
    (cdnFiles : List CdnFile) (h : (applyFiles disk fam au cdnFiles).1 = 0) :
    (applyFiles disk fam au cdnFiles).2.2 = [] := by
  unfold applyFiles at h ⊢
  exact (applyFiles_foldl_count disk au cdnFiles fam (0, "0.0.0", [])).2 h

/-- C7: for a stale asset for which zero files are modified,
`applyAssetUpdate` returns `null` having written no file and performed no
git operation at all, and the caller then creates no pull request and
records no update — a normal no-op outcome. -/
theorem no_changes_no_git_no_pr (opts : UpdateOptions) (env : GitEnv) (disk : String → String)
    (fam : List (String × List AssetVersionItem)) (au : AssetVersion) (cdnFiles : List CdnFile)
    (api : PrApi) (baseBranch : String) (asset : Asset) (version : String)
    (h : (applyFiles disk fam au cdnFiles).1 = 0) :
    applyAssetUpdate opts env disk fam au cdnFiles = (none, [], []) ∧
    publishStep opts api baseBranch none asset version = (none, []) := by
  have hw : (applyFiles disk fam au cdnFiles).2.2 = [] :=
    applyFiles_zero_written disk fam au cdnFiles h
  refine ⟨?_, rfl⟩
  unfold applyAssetUpdate
  rcases hres : applyFiles disk fam au cdnFiles with ⟨n, low, w⟩
  rw [hres] at h hw
  dsimp only at h hw
  subst h
  subst hw
  rfl

/-- C7 witness: with no scanned files, nothing is modified, no git command
runs, and no pull request is created. -/
theorem no_changes_no_git_no_pr_witness :
    applyAssetUpdate exOpts exEnv exDisk [] exAU exCdnFiles = (none, [], []) ∧
    publishStep exOpts exApi "main" none ⟨.cdnjs, "foo"⟩ "3.0.0" = (none, []) :=
  no_changes_no_git_no_pr exOpts exEnv exDisk [] exAU exCdnFiles exApi "main"
    ⟨.cdnjs, "foo"⟩ "3.0.0" (by decide)

/-- C3 (code bug, evaluated at the failing input): with occurrences at
1.0.0 and 2.0.0 both replaced and no commit-message override, the
`lowestVersion` variable ends at the lexicographically highest replaced
version 2.0.0 — not the lowest, 1.0.0 — and the commit message is generated
from 2.0.0 as the current version. Both occurrences really are replaced in
the written file. -/
theorem commitMessage_version_at_failing_input :
    (applyFiles exDisk exFam exAU exCdnFiles).1 = 1 ∧
    (applyFiles exDisk exFam exAU exCdnFiles).2.1 = "2.0.0" ∧
    jsStrLt "1.0.0" "2.0.0" = true ∧
    (applyFiles exDisk exFam exAU exCdnFiles).2.2 = [("index.html",
      "<script src=https://cdnjs.cloudflare.com/ajax/libs/foo/3.0.0/foo.min.js integrity=sha-new>" ++
      "<script src=https://cdnjs.cloudflare.com/ajax/libs/foo/3.0.0/foo.min.js integrity=sha-new>")] ∧
    ["commit", "-m", generateCommitMessage "foo" "2.0.0" "3.0.0"] ∈
      (applyAssetUpdate exOpts exEnv exDisk exFam exAU exCdnFiles).2.1 := by
  set_option maxRecDepth 8000 in decide

/-! ## Dry-run behaviour (claim C9) -/

/-- No command in the configuration prefix of the git trace is a push. -/
theorem configTrace_no_push (opts : UpdateOptions) :
    ∀ cmd ∈ configTrace opts, cmd.head? ≠ some "push" := by
  intro cmd h
  unfold configTrace at h
  simp only [List.mem_append] at h
  rcases h with (h | h) | h
  · split_ifs at h <;> simp_all
  · split_ifs at h <;> simp_all
  · split_ifs at h
    · rcases List.mem_cons.mp h with h | h <;> simp_all
    · simp_all

/-- In dry-run mode the push part of the git trace is empty. -/
theorem pushTrace_dryRun (opts : UpdateOptions) (branch : String) (h : opts.dryRun = true) :
    pushTrace opts branch = [] := by
  unfold pushTrace
  rw [h]
  rfl

/-- C9: with the dry-run flag enabled, `createPullRequest` returns the
placeholder result (number 0, empty url) and makes no network call; the
push never appears in the git trace; the local file rewrites still happen
exactly as computed by the file loop; and whenever a head branch is
returned, the trace still contains the branch creation and the commit. -/
theorem dryRun_suppresses_network_and_push (opts : UpdateOptions) (api : PrApi)
    (base head : String) (asset : AssetVersion) (env : GitEnv) (disk : String → String)
    (fam : List (String × List AssetVersionItem)) (au : AssetVersion) (cdnFiles : List CdnFile)
    (hdry : opts.dryRun = true) :
    createPullRequest opts api base head asset = ({ number := 0, url := "" }, []) ∧
    (∀ cmd ∈ (applyAssetUpdate opts env disk fam au cdnFiles).2.1, cmd.head? ≠ some "push") ∧
    (applyAssetUpdate opts env disk fam au cdnFiles).2.2 =
      (applyFiles disk fam au cdnFiles).2.2 ∧
    (∀ b, (applyAssetUpdate opts env disk fam au cdnFiles).1 = some b →
      ["checkout", "-b", b] ∈ (applyAssetUpdate opts env disk fam au cdnFiles).2.1 ∧
      ∃ msg, ["commit", "-m", msg] ∈ (applyAssetUpdate opts env disk fam au cdnFiles).2.1) := by
  have hpr : createPullRequest opts api base head asset = ({ number := 0, url := "" }, []) := by
    simp [createPullRequest, hdry]
  rcases hres : applyFiles disk fam au cdnFiles with ⟨n, low, w⟩
  by_cases hn : n < 1
  · have e1 : applyAssetUpdate opts env disk fam au cdnFiles = (none, [], w) := by
      simp [applyAssetUpdate, hres, hn]
    rw [e1]
    exact ⟨hpr, fun cmd h => absurd h (List.not_mem_nil cmd),
      rfl, fun b hb => Option.noConfusion hb⟩
  · set b0 := jsToLower ((if opts.branchPrefixStr ≠ "" then opts.branchPrefixStr
      else "update-static-assets") ++ "/" ++ au.name ++ "/" ++ au.version) with hb0
    set m0 := (if opts.commitMessage ≠ "" then opts.commitMessage
      else generateCommitMessage au.name low au.version) with hm0
    by_cases hbv : env.branchVerify b0 ≠ ""
    · have e1 : applyAssetUpdate opts env disk fam au cdnFiles =
          (none, configTrace opts ++ [revParseCmd b0], w) := by
        simp only [applyAssetUpdate, hres, hb0, hm0]
        rw [if_neg hn, if_pos hbv]
      rw [e1]
      refine ⟨hpr, ?_, rfl, fun b hb => Option.noConfusion hb⟩
      intro cmd h
      rcases List.mem_append.mp h with h | h
      · exact configTrace_no_push opts cmd h
      · rw [List.mem_singleton.mp h]
        simp [revParseCmd]
    · have e1 : applyAssetUpdate opts env disk fam au cdnFiles =
          (some b0, configTrace opts ++ [revParseCmd b0] ++ commitTrace b0 m0 ++
            pushTrace opts b0, w) := by
        simp only [applyAssetUpdate, hres, hb0, hm0]
        rw [if_neg hn, if_neg hbv]
      rw [e1, pushTrace_dryRun opts b0 hdry, List.append_nil]
      refine ⟨hpr, ?_, rfl, ?_⟩
      · intro cmd h
        rcases List.mem_append.mp h with h | h
        · rcases List.mem_append.mp h with h | h
          · exact configTrace_no_push opts cmd h
          · rw [List.mem_singleton.mp h]
            simp [revParseCmd]
        · simp only [commitTrace, List.mem_cons, List.not_mem_nil, or_false] at h
          rcases h with h | h | h | h <;> subst h <;> simp
      · intro b hb
        obtain rfl : b0 = b := by simpa using hb
        refine ⟨List.mem_append.mpr (Or.inr ?_), ⟨m0, List.mem_append.mpr (Or.inr ?_)⟩⟩
        · simp [commitTrace]
        · simp [commitTrace]

/-- C9 witness: a concrete dry run creating branch
`update-static-assets/foo/3.0.0`. -/
theorem dryRun_suppresses_network_and_push_witness :
    createPullRequest exOptsDry exApi "main" "update-static-assets/foo/3.0.0" exAU =
      ({ number := 0, url := "" }, []) ∧
    (∀ cmd ∈ (applyAssetUpdate exOptsDry exEnv exDisk exFam exAU exCdnFiles).2.1,
      cmd.head? ≠ some "push") ∧
    (applyAssetUpdate exOptsDry exEnv exDisk exFam exAU exCdnFiles).2.2 =
      (applyFiles exDisk exFam exAU exCdnFiles).2.2 ∧
    (∀ b, (applyAssetUpdate exOptsDry exEnv exDisk exFam exAU exCdnFiles).1 = some b →
      ["checkout", "-b", b] ∈ (applyAssetUpdate exOptsDry exEnv exDisk exFam exAU exCdnFiles).2.1 ∧
      ∃ msg, ["commit", "-m", msg] ∈
        (applyAssetUpdate exOptsDry exEnv exDisk exFam exAU exCdnFiles).2.1) :=
  dryRun_suppresses_network_and_push exOptsDry exApi "main"
    "update-static-assets/foo/3.0.0" exAU exEnv exDisk exFam exAU exCdnFiles (by decide)

/-! ## Reconciler lemmas (claims C1, C2) -/

/-- The record key `` `${cdn}-${name}` `` determines the (cdn, name) pair:
the two provider prefixes are distinct and dash-free, so no collision is
possible. -/
theorem getKey_inj (c1 c2 : CdnProvider) (n1 n2 : String)
    (h : getKey c1 n1 = getKey c2 n2) : c1 = c2 ∧ n1 = n2 := by
  have h2 := congrArg String.data h
  unfold getKey cdnProviderKey at h2
  cases c1 <;> cases c2 <;> simp only [String.data_append] at h2
  · exact ⟨rfl, String.ext (List.append_cancel_left h2)⟩
  · exact absurd (congrArg List.head? h2) (by
      intro hh
      exact Char.noConfusion (Option.some.inj (show some 'c' = some 'j' from hh)) (by decide))
  · exact absurd (congrArg List.head? h2) (by
      intro hh
      exact Char.noConfusion (Option.some.inj (show some 'j' = some 'c' from hh)) (by decide))
  · exact ⟨rfl, String.ext (List.append_cancel_left h2)⟩

/-- Lookup in a cons record. -/
theorem recGet_cons {α : Type} (p : String × α) (t : List (String × α)) (k : String) :
    recGet (p :: t) k = if p.1 = k then some p.2 else recGet t k := by
  unfold recGet
  by_cases h : p.1 = k
  · rw [List.find?_cons_of_pos _ (by simpa using h), if_pos h]
    rfl
  · rw [List.find?_cons_of_neg _ (by simpa using h), if_neg h]

/-- Looking up the key just assigned returns the assigned value. -/
theorem recGet_recSet_self {α : Type} (m : List (String × α)) (k : String) (v : α) :
    recGet (recSet m k v) k = some v := by
  induction m with
  | nil => simp [recSet, recGet_cons]
  | cons p t ih =>
    unfold recSet
    by_cases h : p.1 = k
    · rw [if_pos h, recGet_cons]
      simp
    · rw [if_neg h, recGet_cons, if_neg h]
      exact ih

/-- Assignment to one key does not change lookups of other keys. -/
theorem recGet_recSet_ne {α : Type} (m : List (String × α)) (k k' : String) (v : α)
    (h : k ≠ k') : recGet (recSet m k v) k' = recGet m k' := by
  induction m with
  | nil => simp [recSet, recGet_cons, h]
  | cons p t ih =>
    unfold recSet
    by_cases hp : p.1 = k
    · rw [if_pos hp, recGet_cons, recGet_cons, if_neg h, hp, if_neg h]
    · rw [if_neg hp, recGet_cons, recGet_cons]
      by_cases hpk : p.1 = k'
      · rw [if_pos hpk, if_pos hpk]
      · rw [if_neg hpk, if_neg hpk]
        exact ih

/-- Membership after one `addAsset` step. -/
theorem mem_addAsset (assets : List Asset) (it : AssetVersionItem) (b : Asset) :
    b ∈ addAsset assets it ↔ b ∈ assets ∨ b = ⟨it.cdn, it.name⟩ := by
  unfold addAsset
  by_cases h : (assets.any (fun a => a.cdn == it.cdn && a.name == it.name)) = true
  · rw [if_pos h]
    constructor
    · exact Or.inl
    · rintro (hb | rfl)
      · exact hb
      · rcases List.any_eq_true.mp h with ⟨x, hx, hxe⟩
        simp only [Bool.and_eq_true, beq_iff_eq] at hxe
        have hxa : x = (⟨it.cdn, it.name⟩ : Asset) := by
          cases x
          simp_all
        rwa [← hxa]
  · rw [if_neg h]
    simp [List.mem_append]

/-- Membership after folding `addAsset` over a file's items. -/
theorem mem_foldl_addAsset (items : List AssetVersionItem) :
    ∀ (acc : List Asset) (b : Asset),
      b ∈ items.foldl addAsset acc ↔ b ∈ acc ∨ ∃ it ∈ items, b = ⟨it.cdn, it.name⟩ := by
  induction items with
  | nil => simp
  | cons it t ih =>
    intro acc b
    rw [List.foldl_cons, ih, mem_addAsset]
    simp only [List.mem_cons]
    constructor
    · rintro ((h | rfl) | ⟨x, hx, rfl⟩)
      · exact Or.inl h
      · exact Or.inr ⟨it, Or.inl rfl, rfl⟩
      · exact Or.inr ⟨x, Or.inr hx, rfl⟩
    · rintro (h | ⟨x, hxm, rfl⟩)
      · exact Or.inl (Or.inl h)
      · rcases hxm with rfl | hx
        · exact Or.inl (Or.inr rfl)
        · exact Or.inr ⟨x, hx, rfl⟩

/-- An asset is in the computed unique-asset list iff some scanned file
holds an occurrence with its (cdn, name). -/
theorem mem_computeAssets (fam : List (String × List AssetVersionItem)) (b : Asset) :
    b ∈ computeAssets fam ↔ ∃ e ∈ fam, ∃ it ∈ e.2, b = ⟨it.cdn, it.name⟩ := by
  suffices h : ∀ acc, b ∈ fam.foldl (fun assets entry => entry.2.foldl addAsset assets) acc ↔
      b ∈ acc ∨ ∃ e ∈ fam, ∃ it ∈ e.2, b = ⟨it.cdn, it.name⟩ by
    simpa [computeAssets] using h []
  induction fam with
  | nil => simp
  | cons e t ih =>
    intro acc
    rw [List.foldl_cons, ih, mem_foldl_addAsset]
    simp only [List.mem_cons]
    constructor
    · rintro ((h | ⟨it, hit, rfl⟩) | ⟨f, hf, it, hit, rfl⟩)
      · exact Or.inl h
      · exact Or.inr ⟨e, Or.inl rfl, it, hit, rfl⟩
      · exact Or.inr ⟨f, Or.inr hf, it, hit, rfl⟩
    · rintro (h | ⟨f, hfm, it, hit, rfl⟩)
      · exact Or.inl (Or.inl h)
      · rcases hfm with rfl | hf
        · exact Or.inl (Or.inr ⟨it, hit, rfl⟩)
        · exact Or.inr ⟨f, hf, it, hit, rfl⟩

/-- The versions recorded under a key after one `addVersion` step: exactly
the previously recorded versions plus the item's version (when the item's
identity matches the key). -/
theorem addVersion_spec (m : List (String × List AssetVersion)) (it : AssetVersionItem)
    (c : CdnProvider) (n : String) (v : String) :
    (∃ av ∈ (recGet (addVersion m it) (getKey c n)).getD [], av.version = v) ↔
      ((∃ av ∈ (recGet m (getKey c n)).getD [], av.version = v) ∨
        (it.cdn = c ∧ it.name = n ∧ it.version = v)) := by
  simp only [addVersion]
  by_cases hk : getKey it.cdn it.name = getKey c n
  · obtain ⟨hc, hn⟩ := getKey_inj _ _ _ _ hk
    rw [hk, recGet_recSet_self]
    by_cases hany : (((recGet m (getKey c n)).getD []).any
        (fun a => a.version == it.version)) = true
    · rw [if_pos hany]
      simp only [Option.getD_some]
      constructor
      · exact Or.inl
      · rintro (h | ⟨-, -, rfl⟩)
        · exact h
        · rcases List.any_eq_true.mp hany with ⟨x, hx, hxe⟩
          exact ⟨x, hx, beq_iff_eq.mp hxe⟩
    · rw [if_neg hany]
      simp only [Option.getD_some]
      constructor
      · intro h
        rcases h with ⟨x, hxm, hxv⟩
        rcases List.mem_append.mp hxm with hx | hx
        · exact Or.inl ⟨x, hx, hxv⟩
        · rw [List.mem_singleton.mp hx] at hxv
          exact Or.inr ⟨hc, hn, hxv⟩
      · rintro (⟨x, hx, hxv⟩ | ⟨-, -, rfl⟩)
        · exact ⟨x, List.mem_append.mpr (Or.inl hx), hxv⟩
        · exact ⟨⟨it.cdn, it.name, it.version⟩,
            List.mem_append.mpr (Or.inr (List.mem_singleton.mpr rfl)), rfl⟩
  · rw [recGet_recSet_ne _ _ _ _ hk]
    constructor
    · exact Or.inl
    · rintro (h | ⟨hc, hn, -⟩)
      · exact h
      · exact absurd (by rw [hc, hn]) hk

/-- The versions recorded after folding one file's items. -/
theorem mem_versions_foldl (items : List AssetVersionItem) :
    ∀ (m : List (String × List AssetVersion)) (c : CdnProvider) (n v : String),
      (∃ av ∈ (recGet (items.foldl addVersion m) (getKey c n)).getD [], av.version = v) ↔
        ((∃ av ∈ (recGet m (getKey c n)).getD [], av.version = v) ∨
          ∃ it ∈ items, it.cdn = c ∧ it.name = n ∧ it.version = v) := by
  induction items with
  | nil => simp
  | cons it t ih =>
    intro m c n v
    rw [List.foldl_cons, ih, addVersion_spec]
    simp only [List.mem_cons]
    constructor
    · rintro ((h | h) | ⟨x, hx, hp⟩)
      · exact Or.inl h
      · exact Or.inr ⟨it, Or.inl rfl, h⟩
      · exact Or.inr ⟨x, Or.inr hx, hp⟩
    · rintro (h | ⟨x, hxm, hp⟩)
      · exact Or.inl (Or.inl h)
      · rcases hxm with rfl | hx
        · exact Or.inl (Or.inr hp)
        · exact Or.inr ⟨x, hx, hp⟩

/-- A version is recorded for a (cdn, name) key iff some scanned file holds
an occurrence of that asset at that version. -/
theorem mem_computeAssetVersions (fam : List (String × List AssetVersionItem))
    (c : CdnProvider) (n v : String) :
    (∃ av ∈ (recGet (computeAssetVersions fam) (getKey c n)).getD [], av.version = v) ↔
      ∃ e ∈ fam, ∃ it ∈ e.2, it.cdn = c ∧ it.name = n ∧ it.version = v := by
  suffices h : ∀ m,
      (∃ av ∈ (recGet (fam.foldl (fun m entry => entry.2.foldl addVersion m) m)
          (getKey c n)).getD [], av.version = v) ↔
        ((∃ av ∈ (recGet m (getKey c n)).getD [], av.version = v) ∨
          ∃ e ∈ fam, ∃ it ∈ e.2, it.cdn = c ∧ it.name = n ∧ it.version = v) by
    simpa [computeAssetVersions, recGet] using h []
  induction fam with
  | nil => simp
  | cons e t ih =>
    intro m
    rw [List.foldl_cons, ih, mem_versions_foldl]
    simp only [List.mem_cons]
    constructor
    · rintro ((h | ⟨it, hit, hp⟩) | ⟨f, hf, it, hit, hp⟩)
      · exact Or.inl h
      · exact Or.inr ⟨e, Or.inl rfl, it, hit, hp⟩
      · exact Or.inr ⟨f, Or.inr hf, it, hit, hp⟩
    · rintro (h | ⟨f, hfm, it, hit, hp⟩)
      · exact Or.inl (Or.inl h)
      · rcases hfm with rfl | hf
        · exact Or.inl (Or.inr ⟨it, hit, hp⟩)
        · exact Or.inr ⟨f, hf, it, hit, hp⟩

/-- A key present in the latest-version map comes from an asset of the
list whose lookup succeeded with that value. -/
theorem latest_lookup_some (latest : CdnProvider → String → Option String)
    (assets : List Asset) :
    ∀ (m : List (String × String)) (k : String) (L : String),
      recGet (assets.foldl (addLatest latest) m) k = some L →
      recGet m k = some L ∨
        ∃ a ∈ assets, getKey a.cdn a.name = k ∧ latest a.cdn a.name = some L := by
  induction assets with
  | nil => exact fun m k L h => Or.inl h
  | cons a t ih =>
    intro m k L h
    rw [List.foldl_cons] at h
    rcases ih _ _ _ h with h1 | ⟨x, hx, hk, hl⟩
    · unfold addLatest at h1
      cases hla : latest a.cdn a.name with
      | none =>
        rw [hla] at h1
        exact Or.inl h1
      | some ver =>
        rw [hla] at h1
        by_cases hkk : getKey a.cdn a.name = k
        · rw [hkk, recGet_recSet_self] at h1
          exact Or.inr ⟨a, List.mem_cons_self a t, hkk, by rw [hla, Option.some.inj h1]⟩
        · rw [recGet_recSet_ne _ _ _ _ hkk] at h1
          exact Or.inl h1
    · exact Or.inr ⟨x, List.mem_cons_of_mem a hx, hk, hl⟩

/-- A successful entry of `computeAssetLatestVersions` names an asset of
the run whose CDN lookup returned that version. -/
theorem computeAssetLatestVersions_some (latest : CdnProvider → String → Option String)
    (assets : List Asset) (k L : String)
    (h : recGet (computeAssetLatestVersions latest assets) k = some L) :
    ∃ a ∈ assets, getKey a.cdn a.name = k ∧ latest a.cdn a.name = some L := by
  rcases latest_lookup_some latest assets [] k L h with h1 | h2
  · exact absurd h1 (by simp [recGet])
  · exact h2

/-- Closed form of the fold of `markStale` over a version list. -/
theorem markStale_foldl (asset : Asset) (lv : Option String) (versions : List AssetVersion) :
    ∀ acc, versions.foldl (markStale asset lv) acc =
      if ∃ v ∈ versions, some v.version ≠ lv then
        (if acc.any (fun a => a.cdn == asset.cdn && a.name == asset.name) then acc
         else acc ++ [asset])
      else acc := by
  induction versions with
  | nil => intro acc; simp
  | cons v t ih =>
    intro acc
    rw [List.foldl_cons, ih]
    by_cases hv : some v.version ≠ lv
    · have hstep : markStale asset lv acc v =
          if acc.any (fun a => a.cdn == asset.cdn && a.name == asset.name) then acc
          else acc ++ [asset] := by
        unfold markStale
        rw [if_pos hv]
      rw [hstep]
      have hex : ∃ x ∈ v :: t, some x.version ≠ lv := ⟨v, List.mem_cons_self _ _, hv⟩
      by_cases hany : (acc.any (fun a => a.cdn == asset.cdn && a.name == asset.name)) = true
      · rw [if_pos hany, if_pos hex]
        split_ifs <;> rfl
      · rw [if_neg hany, if_pos hex]
        have hany2 : ((acc ++ [asset]).any
            (fun a => a.cdn == asset.cdn && a.name == asset.name)) = true := by
          simp
        rw [if_pos hany2]
        split_ifs <;> rfl
    · have hstep : markStale asset lv acc v = acc := by
        unfold markStale
        rw [if_neg hv]
      rw [hstep]
      have hcond : (∃ x ∈ v :: t, some x.version ≠ lv) ↔ ∃ x ∈ t, some x.version ≠ lv := by
        constructor
        · rintro ⟨x, hxm, hx⟩
          rcases List.mem_cons.mp hxm with rfl | hxt
          · exact absurd hx hv
          · exact ⟨x, hxt, hx⟩
        · rintro ⟨x, hxt, hx⟩
          exact ⟨x, List.mem_cons_of_mem v hxt, hx⟩
      by_cases ht : ∃ x ∈ t, some x.version ≠ lv
      · rw [if_pos ht, if_pos (hcond.mpr ht)]
      · rw [if_neg ht, if_neg (fun hc => ht (hcond.mp hc))]

/-- Membership after one `addStale` step. -/
theorem mem_addStale (av : List (String × List AssetVersion))
    (alv : List (String × String)) (acc : List Asset) (asset b : Asset) :
    b ∈ addStale av alv acc asset ↔
      b ∈ acc ∨ (b = asset ∧
        ∃ versions, recGet av (getKey asset.cdn asset.name) = some versions ∧
          ∃ v ∈ versions, some v.version ≠ recGet alv (getKey asset.cdn asset.name)) := by
  simp only [addStale]
  cases hg : recGet av (getKey asset.cdn asset.name) with
  | none =>
    dsimp only
    constructor
    · exact Or.inl
    · rintro (h | ⟨-, versions, hvs, -⟩)
      · exact h
      · exact absurd hvs (by simp)
  | some versions =>
    dsimp only
    rw [markStale_foldl]
    by_cases hex : ∃ v ∈ versions, some v.version ≠ recGet alv (getKey asset.cdn asset.name)
    · rw [if_pos hex]
      by_cases hany : (acc.any (fun a => a.cdn == asset.cdn && a.name == asset.name)) = true
      · rw [if_pos hany]
        constructor
        · exact Or.inl
        · rintro (h | ⟨rfl, -⟩)
          · exact h
          · rcases List.any_eq_true.mp hany with ⟨x, hx, hxe⟩
            simp only [Bool.and_eq_true, beq_iff_eq] at hxe
            have hxa : x = b := by
              cases x
              cases b
              simp_all
            rwa [← hxa]
      · rw [if_neg hany]
        constructor
        · intro h
          rcases List.mem_append.mp h with h | h
          · exact Or.inl h
          · exact Or.inr ⟨List.mem_singleton.mp h, versions, rfl, hex⟩
        · rintro (h | ⟨rfl, -⟩)
          · exact List.mem_append.mpr (Or.inl h)
          · exact List.mem_append.mpr (Or.inr (List.mem_singleton.mpr rfl))
    · rw [if_neg hex]
      constructor
      · exact Or.inl
      · rintro (h | ⟨rfl, versions2, hvs2, hex2⟩)
        · exact h
        · exact absurd (Option.some.inj hvs2 ▸ hex2) hex

/-- The cases of `addStale` as a value: it returns either the accumulator
or the accumulator with the asset appended, the latter only when no
matching asset is already there. -/
theorem addStale_cases (av : List (String × List AssetVersion))
    (alv : List (String × String)) (acc : List Asset) (asset : Asset) :
    addStale av alv acc asset = acc ∨
      (addStale av alv acc asset = acc ++ [asset] ∧
        (acc.any (fun a => a.cdn == asset.cdn && a.name == asset.name)) = false) := by
  simp only [addStale]
  cases hg : recGet av (getKey asset.cdn asset.name) with
  | none => exact Or.inl rfl
  | some versions =>
    dsimp only
    rw [markStale_foldl]
    split_ifs with h1 h2
    · exact Or.inl rfl
    · exact Or.inr ⟨rfl, by simpa using h2⟩
    · exact Or.inl rfl

/-- The stale set holds at most one entry per (cdn, name): it is built
without duplicates. -/
theorem computeAssetsToUpdate_nodup (assets : List Asset)
    (av : List (String × List AssetVersion)) (alv : List (String × String)) :
    (computeAssetsToUpdate assets av alv).Nodup := by
  suffices h : ∀ acc : List Asset, acc.Nodup → (assets.foldl (addStale av alv) acc).Nodup from
    h [] List.nodup_nil
  induction assets with
  | nil => exact fun acc h => h
  | cons a t ih =>
    intro acc hacc
    rw [List.foldl_cons]
    apply ih
    rcases addStale_cases av alv acc a with he | ⟨he, hany⟩
    · rwa [he]
    · rw [he]
      apply List.Nodup.append hacc (List.nodup_singleton a)
      intro x hx hxa
      rw [List.mem_singleton.mp hxa] at hx
      have : (acc.any (fun y => y.cdn == a.cdn && y.name == a.name)) = true :=
        List.any_eq_true.mpr ⟨a, hx, by simp⟩
      rw [this] at hany
      exact Bool.noConfusion hany

/-- Membership in the computed stale set. -/
theorem mem_computeAssetsToUpdate (assets : List Asset)
    (av : List (String × List AssetVersion)) (alv : List (String × String)) (b : Asset) :
    b ∈ computeAssetsToUpdate assets av alv ↔
      ∃ x ∈ assets, b = x ∧
        ∃ versions, recGet av (getKey x.cdn x.name) = some versions ∧
          ∃ v ∈ versions, some v.version ≠ recGet alv (getKey x.cdn x.name) := by
  suffices h : ∀ acc, b ∈ assets.foldl (addStale av alv) acc ↔
      b ∈ acc ∨ ∃ x ∈ assets, b = x ∧
        ∃ versions, recGet av (getKey x.cdn x.name) = some versions ∧
          ∃ v ∈ versions, some v.version ≠ recGet alv (getKey x.cdn x.name) by
    simpa [computeAssetsToUpdate] using h []
  induction assets with
  | nil => simp
  | cons a t ih =>
    intro acc
    rw [List.foldl_cons, ih, mem_addStale]
    simp only [List.mem_cons]
    constructor
    · rintro ((h | ⟨hb, hst⟩) | ⟨x, hx, hb, hst⟩)
      · exact Or.inl h
      · exact Or.inr ⟨a, Or.inl rfl, hb, hst⟩
      · exact Or.inr ⟨x, Or.inr hx, hb, hst⟩
    · rintro (h | ⟨x, hxm, hb, hst⟩)
      · exact Or.inl (Or.inl h)
      · rcases hxm with rfl | hx
        · exact Or.inl (Or.inr ⟨hb, hst⟩)
        · exact Or.inr ⟨x, hx, hb, hst⟩

/-- C1: for an asset whose latest version was successfully resolved to
`L`, the stale set contains the asset iff some occurrence of it in some
scanned file carries a version different from `L`; and the stale set never
holds two entries for the same (cdn, name). -/
theorem reconciler_stale_iff (fam : List (String × List AssetVersionItem))
    (latest : CdnProvider → String → Option String) (a : Asset) (L : String)
    (hres : recGet (computeAssetLatestVersions latest (computeAssets fam))
      (getKey a.cdn a.name) = some L) :
    (a ∈ computeAssetsToUpdate (computeAssets fam) (computeAssetVersions fam)
        (computeAssetLatestVersions latest (computeAssets fam)) ↔
      ∃ e ∈ fam, ∃ it ∈ e.2, it.cdn = a.cdn ∧ it.name = a.name ∧ it.version ≠ L) ∧
    (computeAssetsToUpdate (computeAssets fam) (computeAssetVersions fam)
      (computeAssetLatestVersions latest (computeAssets fam))).Nodup := by
  refine ⟨?_, computeAssetsToUpdate_nodup _ _ _⟩
  have ha : a ∈ computeAssets fam := by
    obtain ⟨a', ha'mem, hk, -⟩ := computeAssetLatestVersions_some _ _ _ _ hres
    obtain ⟨hc, hn⟩ := getKey_inj _ _ _ _ hk
    have : a' = a := by
      cases a'
      cases a
      simp_all
    rwa [← this]
  rw [mem_computeAssetsToUpdate]
  constructor
  · rintro ⟨x, -, hb, versions, hvs, v, hvm, hne⟩
    rw [← hb] at hvs hne
    rw [hres] at hne
    have hobs : ∃ av ∈ (recGet (computeAssetVersions fam) (getKey a.cdn a.name)).getD [],
        av.version = v.version := ⟨v, by rw [hvs]; exact hvm, rfl⟩
    rw [mem_computeAssetVersions] at hobs
    obtain ⟨e, he, it, hit, hitc, hitn, hitv⟩ := hobs
    refine ⟨e, he, it, hit, hitc, hitn, ?_⟩
    rw [hitv]
    intro heq
    exact hne (by rw [heq])
  · rintro ⟨e, he, it, hit, hitc, hitn, hitv⟩
    refine ⟨a, ha, rfl, ?_⟩
    have hobs : ∃ av ∈ (recGet (computeAssetVersions fam) (getKey a.cdn a.name)).getD [],
        av.version = it.version :=
      (mem_computeAssetVersions fam a.cdn a.name it.version).mpr ⟨e, he, it, hit, hitc, hitn, rfl⟩
    obtain ⟨v2, hv2mem, hv2⟩ := hobs
    cases hg : recGet (computeAssetVersions fam) (getKey a.cdn a.name) with
    | none =>
      rw [hg] at hv2mem
      exact absurd hv2mem (by simp)
    | some versions =>
      rw [hg] at hv2mem
      rw [Option.getD_some] at hv2mem
      refine ⟨versions, rfl, v2, hv2mem, ?_⟩
      rw [hres, hv2]
      simpa using hitv

/-- C1 witness: with occurrences at 1.0.0 and 2.0.0 and resolved latest
3.0.0, the stale set decision instantiates as stated and the stale set has
no duplicate (cdn, name). -/
theorem reconciler_stale_iff_witness :
    ((⟨.cdnjs, "foo"⟩ : Asset) ∈ computeAssetsToUpdate (computeAssets exFam)
        (computeAssetVersions exFam)
        (computeAssetLatestVersions exLatestThree (computeAssets exFam)) ↔
      ∃ e ∈ exFam, ∃ it ∈ e.2,
        it.cdn = (⟨.cdnjs, "foo"⟩ : Asset).cdn ∧ it.name = (⟨.cdnjs, "foo"⟩ : Asset).name ∧
          it.version ≠ "3.0.0") ∧
    (computeAssetsToUpdate (computeAssets exFam) (computeAssetVersions exFam)
      (computeAssetLatestVersions exLatestThree (computeAssets exFam))).Nodup :=
  reconciler_stale_iff exFam exLatestThree ⟨.cdnjs, "foo"⟩ "3.0.0" (by decide)

/-- C2 counterexample: when the latest-version lookup fails (returns
`null`), the asset is NOT excluded from `assetsToUpdate`: with a single
observed occurrence of `foo` and a CDN whose lookup always fails, the
latest-version map has no entry for `foo`, yet `foo` is in the stale set
(its observed version differs from the absent latest version). -/
theorem failedLookup_in_staleSet_cex :
    recGet (computeAssetLatestVersions exLatestNone (computeAssets exFamOne))
      (getKey .cdnjs "foo") = none ∧
    (⟨.cdnjs, "foo"⟩ : Asset) ∈ computeAssetsToUpdate (computeAssets exFamOne)
      (computeAssetVersions exFamOne)
      (computeAssetLatestVersions exLatestNone (computeAssets exFamOne)) := by decide

/-- C2 amended: an asset whose latest-version lookup returns `null` is
left out of the latest-version map but is still included in
`assetsToUpdate` (every observed version differs from the absent latest
version); the loop structure means the remaining assets are still
processed. Exclusion from actual updates can only happen later, when the
CDN file listing for the undefined version comes back empty. -/
theorem failedLookup_included_in_staleSet (fam : List (String × List AssetVersionItem))
    (latest : CdnProvider → String → Option String) (a : Asset)
    (hnone : recGet (computeAssetLatestVersions latest (computeAssets fam))
      (getKey a.cdn a.name) = none)
    (ha : a ∈ computeAssets fam) :
    a ∈ computeAssetsToUpdate (computeAssets fam) (computeAssetVersions fam)
      (computeAssetLatestVersions latest (computeAssets fam)) := by
  rw [mem_computeAssetsToUpdate]
  refine ⟨a, ha, rfl, ?_⟩
  rw [mem_computeAssets] at ha
  obtain ⟨e, he, it, hit, hbe⟩ := ha
  have hobs : ∃ av ∈ (recGet (computeAssetVersions fam) (getKey a.cdn a.name)).getD [],
      av.version = it.version :=
    (mem_computeAssetVersions fam a.cdn a.name it.version).mpr
      ⟨e, he, it, hit, by rw [hbe], by rw [hbe], rfl⟩
  obtain ⟨v2, hv2mem, -⟩ := hobs
  cases hg : recGet (computeAssetVersions fam) (getKey a.cdn a.name) with
  | none =>
    rw [hg] at hv2mem
    exact absurd hv2mem (by simp)
  | some versions =>
    rw [hg] at hv2mem
    rw [Option.getD_some] at hv2mem
    refine ⟨versions, rfl, v2, hv2mem, ?_⟩
    rw [hnone]
    simp

/-- C2 witness (for the amended claim): the failed lookup leaves `foo` in
the stale set. -/
theorem failedLookup_included_in_staleSet_witness :
    (⟨.cdnjs, "foo"⟩ : Asset) ∈ computeAssetsToUpdate (computeAssets exFamOne)
      (computeAssetVersions exFamOne)
      (computeAssetLatestVersions exLatestNone (computeAssets exFamOne)) :=
  failedLookup_included_in_staleSet exFamOne exLatestNone ⟨.cdnjs, "foo"⟩
    (by decide) (by decide)

end StaticAssets
